import Mathlib

/-
Shallow embedding of the statistical core of the Sample-Data-Equity-Analysis
repository (file `sample_data_equity_analysis/analysis_helper.py`).

The embedding models:
  * Python/NumPy floating-point values as the inductive type `PyFloat`
    (`nan`, positive/negative infinity, or an exact rational).  Exact
    rationals stand in for finite doubles; the claims under study depend
    only on NaN/infinity propagation, comparison semantics, and ordering,
    never on rounding of finite doubles.
  * `_calc_cohens_d` (lines 138-184) as `calcCohensD`, including the
    pandas `count`/`mean`/`std` semantics (sample std of fewer than two
    values is NaN) and `math.sqrt` (which raises `ValueError` on a
    negative argument, hence the `Except` result).
  * `run_anova` (lines 28-135) as `runAnova`, parametrised over the scipy
    primitives `f_oneway`, `kruskal` and the Tukey HSD matrices, which the
    repository treats as external library black boxes.
  * `run_t_test` (lines 187-270) as `runTTest`, parametrised over
    `scipy.stats.ttest_ind`.

The square root of a rational is generally irrational; `ratSqrt` below is
an executable stand-in that is exact on perfect squares (in particular
`ratSqrt 0 = 0` and `ratSqrt 1 = 1`).  No claim examined here depends on
the numeric value of an inexact square root: the claims concern NaN/inf
propagation, the zero test, classification banding as a function of d,
eligibility counting, pair enumeration, and sorting.
-/

namespace EquityAnalysis

/-
Executable rational arithmetic.  The library's `Rat.add`, `Rat.sub`,
`Rat.mul` and `Rat.inv` are `@[irreducible]`, so concrete computations
stated through them cannot be settled by `decide`.  The definitions
below implement the same operations through `mkRat` (which does reduce);
the bridging lemmas prove them equal to the standard operations, so the
model provably computes ordinary rational arithmetic.
-/

/-- Executable rational addition (equal to `a + b`, see `qadd_eq_add`). -/
def qadd (a b : ℚ) : ℚ := mkRat (a.num * b.den + b.num * a.den) (a.den * b.den)

/-- Executable rational subtraction (equal to `a - b`, see `qsub_eq_sub`). -/
def qsub (a b : ℚ) : ℚ := mkRat (a.num * b.den - b.num * a.den) (a.den * b.den)

/-- Executable rational multiplication (equal to `a * b`, see `qmul_eq_mul`). -/
def qmul (a b : ℚ) : ℚ := mkRat (a.num * b.num) (a.den * b.den)

/-- Executable rational division (equal to `a / b`, see `qdiv_eq_div`;
division by zero yields zero, matching the Mathlib convention — every
division in the embedding is guarded by an explicit zero test anyway). -/
def qdiv (a b : ℚ) : ℚ := mkRat (a.num * b.den * b.num.sign) (a.den * b.num.natAbs)

/-- Sum of a list of rationals through `qadd`. -/
def qsum (l : List ℚ) : ℚ := l.foldr qadd 0

/-- Executable integer square root (equal to `Nat.sqrt`, which itself is
defined by well-founded recursion and therefore does not reduce): the
number of positive integers whose square does not exceed `n`. -/
def natSqrt (n : ℕ) : ℕ := (List.range (n + 1)).countP (fun k => decide ((k+1) * (k+1) ≤ n))

/-- Lexicographic comparison of character lists by code point. -/
def lexLe : List Char → List Char → Bool
  | [], _ => true
  | _ :: _, [] => false
  | a :: as, b :: bs =>
    if a.toNat < b.toNat then true
    else if b.toNat < a.toNat then false
    else lexLe as bs

/-- Executable string ordering (code-point lexicographic, the order
pandas uses for its sorted group keys on these label strings). -/
def strLe (a b : String) : Bool := lexLe a.data b.data

/-- Decidable equality for `Except`, needed to settle concrete runs of
the fallible effect-size computation by `decide`. -/
instance {ε α : Type} [DecidableEq ε] [DecidableEq α] : DecidableEq (Except ε α) := fun x y =>
  match x, y with
  | .ok a, .ok b =>
    match decEq a b with
    | .isTrue h => .isTrue (h ▸ rfl)
    | .isFalse h => .isFalse (fun hh => h (Except.ok.inj hh))
  | .error a, .error b =>
    match decEq a b with
    | .isTrue h => .isTrue (h ▸ rfl)
    | .isFalse h => .isFalse (fun hh => h (Except.error.inj hh))
  | .ok _, .error _ => .isFalse (fun hh => Except.noConfusion hh)
  | .error _, .ok _ => .isFalse (fun hh => Except.noConfusion hh)

/-- Model of a Python/NumPy double: NaN, +inf, -inf, or a finite value
(represented exactly as a rational). -/
inductive PyFloat where
  | nan
  | inf
  | ninf
  | fin (q : ℚ)
deriving DecidableEq, Repr

namespace PyFloat

/-- Python `<` on floats: any comparison involving NaN is `False`. -/
def pyLt : PyFloat → PyFloat → Bool
  | nan, _ => false
  | _, nan => false
  | ninf, ninf => false
  | ninf, _ => true
  | _, ninf => false
  | inf, _ => false
  | fin _, inf => true
  | fin a, fin b => decide (a < b)

/-- Python `<=` on floats: any comparison involving NaN is `False`. -/
def pyLe : PyFloat → PyFloat → Bool
  | nan, _ => false
  | _, nan => false
  | ninf, _ => true
  | _, ninf => false
  | _, inf => true
  | inf, fin _ => false
  | fin a, fin b => decide (a ≤ b)

/-- Python `==` on floats: NaN compares unequal to everything, including
itself.  This models the expression `p_value == NaN` in `run_anova`. -/
def pyEq : PyFloat → PyFloat → Bool
  | fin a, fin b => decide (a = b)
  | inf, inf => true
  | ninf, ninf => true
  | _, _ => false

/-- IEEE addition on the model. -/
def pyAdd : PyFloat → PyFloat → PyFloat
  | nan, _ => nan
  | _, nan => nan
  | inf, ninf => nan
  | ninf, inf => nan
  | inf, _ => inf
  | _, inf => inf
  | ninf, _ => ninf
  | _, ninf => ninf
  | fin a, fin b => fin (qadd a b)

/-- IEEE subtraction on the model. -/
def pySub : PyFloat → PyFloat → PyFloat
  | nan, _ => nan
  | _, nan => nan
  | inf, inf => nan
  | ninf, ninf => nan
  | inf, _ => inf
  | _, inf => ninf
  | ninf, _ => ninf
  | _, ninf => inf
  | fin a, fin b => fin (qsub a b)

/-- IEEE multiplication on the model: `0 * nan = nan`, `inf * 0 = nan`. -/
def pyMul : PyFloat → PyFloat → PyFloat
  | nan, _ => nan
  | _, nan => nan
  | inf, inf => inf
  | inf, ninf => ninf
  | ninf, inf => ninf
  | ninf, ninf => inf
  | inf, fin b => if b = 0 then nan else if 0 < b then inf else ninf
  | fin a, inf => if a = 0 then nan else if 0 < a then inf else ninf
  | ninf, fin b => if b = 0 then nan else if 0 < b then ninf else inf
  | fin a, ninf => if a = 0 then nan else if 0 < a then ninf else inf
  | fin a, fin b => fin (qmul a b)

/-- NumPy float division: division by zero yields `inf`/`-inf`/`nan`
rather than raising (the operands in `_calc_cohens_d` are NumPy scalars,
for which `x / 0.0` does not raise `ZeroDivisionError`). -/
def pyDiv : PyFloat → PyFloat → PyFloat
  | nan, _ => nan
  | _, nan => nan
  | inf, fin b => if b < 0 then ninf else inf
  | ninf, fin b => if b < 0 then inf else ninf
  | inf, inf => nan
  | inf, ninf => nan
  | ninf, inf => nan
  | ninf, ninf => nan
  | fin _, inf => fin 0
  | fin _, ninf => fin 0
  | fin a, fin b =>
      if b = 0 then (if a = 0 then nan else if 0 < a then inf else ninf)
      else fin (qdiv a b)

/-- Absolute value. -/
def pyAbs : PyFloat → PyFloat
  | nan => nan
  | inf => inf
  | ninf => inf
  | fin q => fin |q|

/-- Squaring, as used for `s1 ** 2` in the pooled-variance formula. -/
def pyPow2 : PyFloat → PyFloat
  | nan => nan
  | inf => inf
  | ninf => inf
  | fin q => fin (qmul q q)

end PyFloat

open PyFloat

/-- Executable stand-in for the real square root on rationals: exact on
perfect squares (in particular `ratSqrt 0 = 0`), an under-approximation
elsewhere.  No claim below depends on its value at a non-square. -/
def ratSqrt (q : ℚ) : ℚ := mkRat (natSqrt q.num.toNat) (natSqrt q.den)

/-- Model of `math.sqrt`: raises `ValueError` ("math domain error") on a
negative argument, propagates NaN, and maps a finite nonnegative rational
through `ratSqrt`. -/
def pySqrtE : PyFloat → Except String PyFloat
  | .nan => .ok .nan
  | .inf => .ok .inf
  | .ninf => .error "math domain error"
  | .fin q => if q < 0 then .error "math domain error" else .ok (.fin (ratSqrt q))

/-- Model of `pandas.Series.mean`: NaN on an empty series, otherwise the
exact arithmetic mean. -/
def pyMean (l : List ℚ) : PyFloat :=
  if l.length = 0 then .nan else .fin (qdiv (qsum l) (l.length : ℚ))

/-- Sample variance with `ddof = 1` (the pandas default), only meaningful
for length at least 2. -/
def sampleVar (l : List ℚ) : ℚ :=
  let m : ℚ := qdiv (qsum l) (l.length : ℚ)
  qdiv (qsum (l.map (fun x => qmul (qsub x m) (qsub x m)))) (qsub (l.length : ℚ) 1)

/-- Model of `pandas.Series.std` (`ddof = 1`): NaN for fewer than two
values, otherwise the square root of the sample variance. -/
def pyStd (l : List ℚ) : PyFloat :=
  if l.length < 2 then .nan else .fin (ratSqrt (sampleVar l))

/-- Classification chain of `_calc_cohens_d` (lines 172-182), verbatim:
the source initialises `effect_size = "Very small"` and then runs an
`if`/`elif`/`else` chain whose final `else` always assigns, so the
initial value is dead and the chain below is the whole function.  All
comparisons follow Python float semantics (`pyLt`/`pyLe`), under which
every ordered comparison against NaN is `False`. -/
def classify (d : PyFloat) : String :=
  if pyLt (.fin (mkRat 1 100)) d && pyLe d (.fin (mkRat 2 10)) then "Small"
  else if pyLe d (.fin (mkRat 1 2)) then "Medium"
  else if pyLe d (.fin (mkRat 4 5)) then "Large"
  else if pyLe d (.fin (mkRat 6 5)) then "Very large"
  else "Huge"

/-- Pooled standard deviation `s` of `_calc_cohens_d` (line 169):
`math.sqrt(((n1 - 1) * s1**2 + (n2 - 1) * s2**2) / (n1 + n2 - 2))`,
with `n` the non-null count, `s1`/`s2` the pandas sample stds. -/
def cohensS (sample1 sample2 : List ℚ) : Except String PyFloat :=
  let n1 : ℚ := sample1.length
  let n2 : ℚ := sample2.length
  pySqrtE (pyDiv
    (pyAdd (pyMul (.fin (qsub n1 1)) (pyPow2 (pyStd sample1)))
           (pyMul (.fin (qsub n2 1)) (pyPow2 (pyStd sample2))))
    (.fin (qsub (qadd n1 n2) 2)))

/-- Standardized difference `d` of `_calc_cohens_d` (line 170):
`abs(m1 - m2) / s`. -/
def cohensDval (sample1 sample2 : List ℚ) : Except String PyFloat :=
  (cohensS sample1 sample2).map
    (fun s => pyDiv (pyAbs (pySub (pyMean sample1) (pyMean sample2))) s)

/-- Embedding of `_calc_cohens_d` (lines 138-184).  The source returns
`(num_to_string(d), effect_size)`; the model returns the value `d` itself
in place of its decimal rendering, since no claim depends on the string
form of the number. -/
def calcCohensD (sample1 sample2 : List ℚ) : Except String (PyFloat × String) :=
  (cohensDval sample1 sample2).map (fun d => (d, classify d))

/-
Data model.  A dataset row (one student) carries the entity identifier
(`StudentKey`, never null in the loaded data), the demographic category
value, and the outcome measure value (nullable).  A `List Student` stands
for the DataFrame restricted to the demographic and measure under
analysis.
-/

/-- One row of the students DataFrame, projected to the columns the
engines read: `StudentKey`, the chosen demographic, the chosen measure. -/
structure Student where
  key : ℕ
  label : String
  measure : Option ℚ
deriving DecidableEq, Repr

/-- The `MAGIC_NUMBER` population-size threshold (line 25). -/
def MAGIC_NUMBER : ℕ := 30

/-- The outcome values of one subgroup: measure values of the non-null
rows carrying the given label, in row order.  This is
`students[(students[demographic] == label) & not_null][measure_label]`. -/
def valuesFor (st : List Student) (label : String) : List ℚ :=
  (st.filter (fun s => s.label = label && s.measure.isSome)).filterMap (·.measure)

/-- The distinct demographic labels among rows with a non-null measure,
in ascending order (pandas `groupby` sorts group keys). -/
def groupLabels (st : List Student) : List String :=
  List.insertionSort (fun a b => strLe a b = true)
    (((st.filter (fun s => s.measure.isSome)).map (·.label)).dedup)

/-- The per-label count table: for each group, the number of rows with a
non-null measure (the `StudentKey` column is never null, so the pandas
`count` aggregate equals the number of rows in the group). -/
def groupCounts (st : List Student) : List (String × ℕ) :=
  (groupLabels st).map (fun l => (l, (valuesFor st l).length))

/-- The labels that survive the size filter: count strictly greater than
`MAGIC_NUMBER` (`variances_all["StudentKey"] > MAGIC_NUMBER` in
`run_anova`, `group_count["StudentKey"] > MAGIC_NUMBER` in `run_t_test`;
both engines compute the same predicate over the same count table). -/
def eligibleLabels (st : List Student) : List String :=
  ((groupCounts st).filter (fun g => decide (MAGIC_NUMBER < g.2))).map (·.1)

/-- Decision rule shared by both engines (lines 92 and 233): the null
hypothesis is upheld exactly when `p_value > 0.05`. -/
def pUpheld (p : PyFloat) : Bool := pyLt (.fin (mkRat 1 20)) p

/-- Rounding to three decimals, as performed by `num_to_string`
(`round(number, 3)`) before a value is placed in a reported table.
Mathlib `round` is half-up where Python rounds half-to-even; the two
agree except on exact half-thousandth ties, and no claim depends on tie
direction. -/
def round3 (q : ℚ) : ℚ := qdiv ((⌊qadd (qmul q 1000) (mkRat 1 2)⌋ : ℤ) : ℚ) 1000

/-- One row of the Tukey post-hoc table built in `run_anova`
(lines 117-129): the pair of labels, the statistic, p-value and
confidence-interval bounds as reported (rounded to three decimals), and
the effect size of the pair (`_calc_cohens_d` cannot fail on eligible
groups, so its `Except` is flattened to an `Option`). -/
structure PostHocRow where
  l1 : String
  l2 : String
  stat : ℚ
  p : ℚ
  low : ℚ
  high : ℚ
  effect : Option (PyFloat × String)
deriving DecidableEq, Repr

/-- Index pairs produced by the nested loops of lines 118-121:
`for i in range(n): for j in range(n): if i >= j: continue`. -/
def pairIdx (n : ℕ) : List (ℕ × ℕ) :=
  (List.range n).flatMap
    (fun i => ((List.range n).filter (fun j => decide (i < j))).map (fun j => (i, j)))

/-- The unsorted post-hoc rows: one per index pair, reading the Tukey
statistic/p-value/confidence-interval matrices and computing the pairwise
effect size, as in lines 117-129. -/
def postHocRows (labels : List String) (samples : String → List ℚ)
    (tstat tp tlow thigh : ℕ → ℕ → ℚ) : List PostHocRow :=
  (pairIdx labels.length).map (fun ij =>
    { l1 := labels.getD ij.1 ""
      l2 := labels.getD ij.2 ""
      stat := round3 (tstat ij.1 ij.2)
      p := round3 (tp ij.1 ij.2)
      low := round3 (tlow ij.1 ij.2)
      high := round3 (thigh ij.1 ij.2)
      effect := (calcCohensD (samples (labels.getD ij.1 ""))
                             (samples (labels.getD ij.2 ""))).toOption })

/-- The `sort_values(by=["p Value"])` step (line 132): ascending by the
reported p-value.  (For p-values in `[0, 1]` the lexicographic order on
their three-decimal renderings, which pandas actually compares, agrees
with the numeric order of the rounded values.) -/
def sortPostHoc (rows : List PostHocRow) : List PostHocRow :=
  List.insertionSort (fun a b => a.p ≤ b.p) rows

/-- The p-value ordering on post-hoc rows is total. -/
instance : IsTotal PostHocRow (fun a b => a.p ≤ b.p) := ⟨fun a b => le_total a.p b.p⟩

/-- The p-value ordering on post-hoc rows is transitive. -/
instance : IsTrans PostHocRow (fun a b => a.p ≤ b.p) := ⟨fun _ _ _ hab hbc => le_trans hab hbc⟩

/-- Result record of `run_anova`: whether the test executed, whether the
`p_value == NaN` fallback branch was taken, the p-value that drives the
decision, the verdict, and the post-hoc table (present only on
rejection). -/
structure AnovaResult where
  ran : Bool
  fallbackTaken : Bool
  pUsed : Option PyFloat
  upheld : Option Bool
  postHoc : Option (List PostHocRow)
deriving Repr

/-- Embedding of `run_anova` (lines 28-135), parametrised over the scipy
primitives: `fOneway` and `kruskal` map the list of eligible samples to
a p-value; `tstat`/`tp`/`tlow`/`thigh` are the Tukey HSD statistic,
p-value and confidence-interval matrices. -/
def runAnova (fOneway kruskal : List (List ℚ) → PyFloat)
    (tstat tp tlow thigh : ℕ → ℕ → ℚ) (st : List Student) : AnovaResult :=
  let labels := eligibleLabels st
  if labels.length < 2 then
    { ran := false, fallbackTaken := false, pUsed := none, upheld := none,
      postHoc := none }
  else
    let data := labels.map (valuesFor st)
    let p0 := fOneway data
    let fb := pyEq p0 .nan
    let p := if fb then kruskal data else p0
    let up := pUpheld p
    { ran := true
      fallbackTaken := fb
      pUsed := some p
      upheld := some up
      postHoc :=
        if up then none
        else some (sortPostHoc (postHocRows labels (valuesFor st) tstat tp tlow thigh)) }

/-- One cell of a reported table. -/
inductive Cell where
  | str (s : String)
  | num (x : PyFloat)
deriving DecidableEq, Repr

/-- Column headers of the descriptive-statistics table (line 248). -/
def statsColumns : List Cell :=
  [.str "Label", .str "Count", .str "Mean", .str "StD", .str "Min", .str "Max"]

/-- Minimum of a sample as `describe()` reports it (NaN on empty). -/
def descMin (l : List ℚ) : PyFloat :=
  match l with
  | [] => .nan
  | a :: t => .fin (t.foldl min a)

/-- Maximum of a sample as `describe()` reports it (NaN on empty). -/
def descMax (l : List ℚ) : PyFloat :=
  match l with
  | [] => .nan
  | a :: t => .fin (t.foldl max a)

/-- Rounding to three decimals on the float model, as `num_to_string`
does to every value placed in a table. -/
def pyRound3 : PyFloat → PyFloat
  | .nan => .nan
  | .inf => .inf
  | .ninf => .ninf
  | .fin q => .fin (round3 q)

/-- One data row of the descriptive-statistics table, in the exact order
of lines 250-257: label, count, mean, std, then `max`, then `min` (the
source places `cat_stats["max"]` in the fifth position and
`cat_stats["min"]` in the sixth while the headers name those positions
"Min" and "Max"). -/
def statsRow (label : String) (vals : List ℚ) : List Cell :=
  [ .str label
  , .num (pyRound3 (.fin (vals.length : ℚ)))
  , .num (pyRound3 (pyMean vals))
  , .num (pyRound3 (pyStd vals))
  , .num (pyRound3 (descMax vals))
  , .num (pyRound3 (descMin vals)) ]

/-- Result record of `run_t_test`: whether the test executed, the
p-value, the verdict, the effect size reported on rejection, and the
descriptive-statistics table (built whenever the test executed). -/
structure TTestResult where
  ran : Bool
  pUsed : Option PyFloat
  upheld : Option Bool
  effect : Option (PyFloat × String)
  statsTable : Option (List (List Cell))
deriving Repr

/-- Embedding of `run_t_test` (lines 187-270), parametrised over
`scipy.stats.ttest_ind` (Welch).  After the eligibility check the source
indexes `categories[0]` and `categories[1]`; with at least two eligible
labels the `getD` defaults are never used. -/
def runTTest (ttest : List ℚ → List ℚ → PyFloat) (st : List Student) : TTestResult :=
  let labels := eligibleLabels st
  if labels.length < 2 then
    { ran := false, pUsed := none, upheld := none, effect := none,
      statsTable := none }
  else
    let l0 := labels.getD 0 ""
    let l1 := labels.getD 1 ""
    let c0 := valuesFor st l0
    let c1 := valuesFor st l1
    let p := ttest c0 c1
    let up := pUpheld p
    { ran := true
      pUsed := some p
      upheld := some up
      effect := if up then none else (calcCohensD c0 c1).toOption
      statsTable := some [statsRow l0 c0, statsRow l1 c1] }

/-
Concrete datasets used by witnesses and counterexamples.
-/

/-- Rows for one subgroup: one student per value, all with the given
label. -/
def mkRows (label : String) (vals : List ℚ) : List Student :=
  vals.map (fun v => { key := 0, label := label, measure := some v })

/-- Values of the concrete subgroup "A": 31 non-null values with minimum
1 and maximum 5. -/
def valsA : List ℚ := 1 :: 5 :: List.replicate 29 2

/-- Values of the concrete subgroup "B": 31 non-null values with minimum
3 and maximum 4. -/
def valsB : List ℚ := 3 :: 4 :: List.replicate 29 3

/-- A concrete dataset: subgroups "A" (31 rows) and "B" (31 rows) pass
the size filter, subgroup "C" (exactly 30 rows) does not, and one "A"
row with a null measure is dropped by the non-null filter. -/
def stBig : List Student :=
  mkRows "A" valsA ++ mkRows "B" valsB ++ mkRows "C" (List.replicate 30 7) ++
    [{ key := 0, label := "A", measure := none }]

/-
Bridging lemmas: the executable rational operations agree with the
standard Mathlib operations, so the model computes ordinary rational
arithmetic.
-/

theorem qadd_eq_add (a b : ℚ) : qadd a b = a + b := by
  have ha : ((a.den : ℚ)) ≠ 0 := Nat.cast_ne_zero.mpr a.den_nz
  have hb : ((b.den : ℚ)) ≠ 0 := Nat.cast_ne_zero.mpr b.den_nz
  rw [qadd, Rat.mkRat_eq_div, eq_comm]
  push_cast
  conv_lhs => rw [← Rat.num_div_den a, ← Rat.num_div_den b]
  field_simp

theorem qsub_eq_sub (a b : ℚ) : qsub a b = a - b := by
  have ha : ((a.den : ℚ)) ≠ 0 := Nat.cast_ne_zero.mpr a.den_nz
  have hb : ((b.den : ℚ)) ≠ 0 := Nat.cast_ne_zero.mpr b.den_nz
  rw [qsub, Rat.mkRat_eq_div, eq_comm]
  push_cast
  conv_lhs => rw [← Rat.num_div_den a, ← Rat.num_div_den b]
  field_simp
  ring

theorem qmul_eq_mul (a b : ℚ) : qmul a b = a * b := by
  have ha : ((a.den : ℚ)) ≠ 0 := Nat.cast_ne_zero.mpr a.den_nz
  have hb : ((b.den : ℚ)) ≠ 0 := Nat.cast_ne_zero.mpr b.den_nz
  rw [qmul, Rat.mkRat_eq_div, eq_comm]
  push_cast
  conv_lhs => rw [← Rat.num_div_den a, ← Rat.num_div_den b]
  field_simp

theorem qdiv_eq_div (a b : ℚ) : qdiv a b = a / b := by
  have ha : ((a.den : ℚ)) ≠ 0 := Nat.cast_ne_zero.mpr a.den_nz
  have hbd : ((b.den : ℚ)) ≠ 0 := Nat.cast_ne_zero.mpr b.den_nz
  rcases lt_trichotomy b.num 0 with h | h | h
  · have hb : b ≠ 0 := fun hb0 => by simp [hb0] at h
    have hbn : ((b.num : ℚ)) ≠ 0 := Int.cast_ne_zero.mpr (ne_of_lt h)
    have hs : b.num.sign = -1 := Int.sign_eq_neg_one_of_neg h
    have hn : ((b.num.natAbs : ℚ)) = -(b.num : ℚ) := by
      rw [Int.cast_natAbs, abs_of_neg h]
      push_cast
      ring
    rw [qdiv, hs, Rat.mkRat_eq_div, eq_comm]
    push_cast [hn]
    conv_lhs => rw [← Rat.num_div_den a, ← Rat.num_div_den b]
    field_simp
  · have hb : b = 0 := by
      have := Rat.num_div_den b
      rw [h] at this
      simpa using this.symm
    subst hb
    simp [qdiv, Rat.mkRat_eq_div]
  · have hb : b ≠ 0 := fun hb0 => by simp [hb0] at h
    have hbn : ((b.num : ℚ)) ≠ 0 := Int.cast_ne_zero.mpr (ne_of_gt h)
    have hs : b.num.sign = 1 := Int.sign_eq_one_of_pos h
    have hn : ((b.num.natAbs : ℚ)) = (b.num : ℚ) := by
      rw [Int.cast_natAbs, abs_of_pos h]
    rw [qdiv, hs, Rat.mkRat_eq_div, eq_comm]
    push_cast [hn]
    conv_lhs => rw [← Rat.num_div_den a, ← Rat.num_div_den b]
    field_simp

theorem qsum_eq_sum (l : List ℚ) : qsum l = l.sum := by
  induction l with
  | nil => rfl
  | cons a t ih => simp [qsum, List.foldr, qadd_eq_add, List.sum_cons] at ih ⊢; rw [ih]


set_option maxRecDepth 100000

/-
Basic facts about the float model.
-/

theorem pyLt_nan_right (x : PyFloat) : pyLt x .nan = false := by cases x <;> rfl

theorem pyLe_nan_left (x : PyFloat) : pyLe .nan x = false := by cases x <;> rfl

theorem pyEq_nan_right (x : PyFloat) : pyEq x .nan = false := by cases x <;> rfl

theorem pyAdd_nan_left (x : PyFloat) : pyAdd .nan x = .nan := by cases x <;> rfl

theorem pyAdd_nan_right (x : PyFloat) : pyAdd x .nan = .nan := by cases x <;> rfl

theorem pyMul_nan_right (x : PyFloat) : pyMul x .nan = .nan := by cases x <;> rfl

theorem pyDiv_nan_left (x : PyFloat) : pyDiv .nan x = .nan := by cases x <;> rfl

theorem pyDiv_nan_right (x : PyFloat) : pyDiv x .nan = .nan := by cases x <;> rfl

theorem classify_nan : classify .nan = "Huge" := rfl

theorem classify_inf : classify .inf = "Huge" := rfl

/-- C1.  The claim says the label is a step function of d with
"Very small" for every d ≤ 0.01.  The code disagrees: because the
`elif d <= 0.5` branch of `_calc_cohens_d` has no lower bound and the
final `else` always assigns, the `effect_size = "Very small"` initializer
is dead, and every d ≤ 0.01 — including d = 0 and the boundary d = 0.01 —
is labelled "Medium".  The remaining bands behave as claimed
(0.2 → "Small", 0.5 → "Medium", 0.8 → "Large", 1.2 → "Very large",
above → "Huge"). -/
theorem classify_small_d_is_medium :
    classify (.fin 0) = "Medium"
    ∧ classify (.fin (mkRat 1 100)) = "Medium"
    ∧ classify (.fin (mkRat 2 10)) = "Small"
    ∧ classify (.fin (mkRat 1 2)) = "Medium"
    ∧ classify (.fin (mkRat 4 5)) = "Large"
    ∧ classify (.fin (mkRat 6 5)) = "Very large"
    ∧ classify (.fin (mkRat 13 10)) = "Huge" := by
  refine ⟨by decide, by decide, by decide, by decide, by decide, by decide, by decide⟩

/-- C4 (counterexample).  The claim says a two-group p-value of exactly
0.05 upholds the null hypothesis; running the engine with
`ttest_ind` returning exactly 0.05 on an eligible dataset rejects it
instead (`p_value > 0.05` is false at the boundary). -/
theorem t_test_p_boundary_rejected :
    (runTTest (fun _ _ => .fin (mkRat 1 20)) stBig).upheld = some false := by decide

/-- C4 (amended).  The decision rule upholds the null exactly when
p > 0.05; hence p = 0.05 exactly is treated as significant (null
rejected), not as "not significant". -/
theorem upheld_iff_p_above_alpha :
    (∀ p : ℚ, pUpheld (.fin p) = !decide (p ≤ 1/20)) ∧ pUpheld (.fin (1/20)) = false := by
  have hm : mkRat 1 20 = (1 : ℚ)/20 := by
    rw [Rat.mkRat_eq_div]; norm_num
  constructor
  · intro p
    simp only [pUpheld, pyLt, hm]
    rcases le_or_lt p ((20 : ℚ)⁻¹) with h | h
    · simp [not_lt.mpr h, h]
    · simp [h, not_le.mpr h]
  · simp [pUpheld, pyLt, hm]

/-- C6 (counterexample).  On the constant samples `[1, 1]` and `[2, 2]`
the pooled standard deviation is exactly zero, yet the calculator raises
nothing: it returns normally with an infinite d labelled "Huge". -/
theorem zero_pooled_std_returns_ok :
    cohensS [1, 1] [2, 2] = .ok (.fin 0)
    ∧ calcCohensD [1, 1] [2, 2] = .ok (.inf, "Huge") := by
  exact ⟨by decide, by decide⟩

/-- C6 (amended).  Whenever the pooled standard deviation of two samples
(each with at least two elements) is zero, `_calc_cohens_d` signals no
error: it returns normally, with d infinite when the means differ and
NaN when they coincide, and the label is "Huge" either way. -/
theorem zero_pooled_std_yields_huge (s1 s2 : List ℚ)
    (h1 : 2 ≤ s1.length) (h2 : 2 ≤ s2.length)
    (hS : cohensS s1 s2 = .ok (.fin 0)) :
    ∃ d, calcCohensD s1 s2 = .ok (d, "Huge") ∧ (d = .inf ∨ d = .nan) := by
  have hm1 : pyMean s1 = .fin (qdiv (qsum s1) (s1.length : ℚ)) := by
    unfold pyMean
    rw [if_neg (by omega)]
  have hm2 : pyMean s2 = .fin (qdiv (qsum s2) (s2.length : ℚ)) := by
    unfold pyMean
    rw [if_neg (by omega)]
  have hd : cohensDval s1 s2
      = .ok (pyDiv (pyAbs (pySub (pyMean s1) (pyMean s2))) (.fin 0)) := by
    unfold cohensDval
    rw [hS]
    rfl
  rw [hm1, hm2] at hd
  set x : ℚ := qsub (qdiv (qsum s1) (s1.length : ℚ)) (qdiv (qsum s2) (s2.length : ℚ)) with hx
  have habs : pyAbs (pySub (.fin (qdiv (qsum s1) (s1.length : ℚ)))
      (.fin (qdiv (qsum s2) (s2.length : ℚ)))) = .fin |x| := rfl
  rw [habs] at hd
  rcases eq_or_lt_of_le (abs_nonneg x) with h0 | h0
  · refine ⟨.nan, ?_, Or.inr rfl⟩
    have : pyDiv (.fin |x|) (.fin 0) = .nan := by
      simp only [pyDiv]
      simp [← h0]
    rw [this] at hd
    unfold calcCohensD
    rw [hd]
    rfl
  · refine ⟨.inf, ?_, Or.inl rfl⟩
    have : pyDiv (.fin |x|) (.fin 0) = .inf := by
      simp only [pyDiv]
      simp [h0, abs_pos.mp h0]
    rw [this] at hd
    unfold calcCohensD
    rw [hd]
    rfl

/-- C6 (witness): the amended statement holds on the concrete degenerate
pair `[1, 1]`, `[2, 2]`. -/
theorem zero_pooled_std_yields_huge_witness :
    ∃ d, calcCohensD [1, 1] [2, 2] = .ok (d, "Huge") ∧ (d = .inf ∨ d = .nan) :=
  zero_pooled_std_yields_huge [1, 1] [2, 2] (by decide) (by decide) (by decide)

/-- C7 (counterexample).  The single-element sample `[5]` is not
rejected: the calculator silently returns NaN labelled "Huge". -/
theorem single_element_sample_returns_ok :
    calcCohensD [5] [1, 2, 3] = .ok (.nan, "Huge") := by decide

/-- C7 (amended).  `_calc_cohens_d` performs no minimum-size check: for
every input in which either sample has fewer than two elements, it
returns normally with d = NaN (the sample standard deviation of fewer
than two values is NaN, which propagates) and the label "Huge". -/
theorem short_sample_yields_nan_huge (s1 s2 : List ℚ)
    (h : s1.length < 2 ∨ s2.length < 2) :
    calcCohensD s1 s2 = .ok (.nan, "Huge") := by
  have harg : pyAdd (pyMul (.fin (qsub (s1.length : ℚ) 1)) (pyPow2 (pyStd s1)))
      (pyMul (.fin (qsub (s2.length : ℚ) 1)) (pyPow2 (pyStd s2))) = .nan := by
    rcases h with h | h
    · have hstd : pyStd s1 = .nan := by unfold pyStd; rw [if_pos h]
      rw [hstd]
      rw [show pyPow2 .nan = .nan from rfl]
      rw [show pyMul (.fin (qsub (s1.length : ℚ) 1)) .nan = .nan from
        pyMul_nan_right _]
      exact pyAdd_nan_left _
    · have hstd : pyStd s2 = .nan := by unfold pyStd; rw [if_pos h]
      rw [hstd]
      rw [show pyPow2 .nan = .nan from rfl]
      rw [show pyMul (.fin (qsub (s2.length : ℚ) 1)) .nan = .nan from
        pyMul_nan_right _]
      exact pyAdd_nan_right _
  have hS : cohensS s1 s2 = .ok .nan := by
    simp only [cohensS]
    rw [harg, pyDiv_nan_left]
    rfl
  have hd : cohensDval s1 s2 = .ok .nan := by
    unfold cohensDval
    rw [hS]
    show Except.ok (pyDiv (pyAbs (pySub (pyMean s1) (pyMean s2))) .nan) = _
    rw [pyDiv_nan_right]
  unfold calcCohensD
  rw [hd]
  rfl

/-- C7 (witness): the amended statement holds on the concrete input
`[5]`, `[1, 2, 3]`. -/
theorem short_sample_yields_nan_huge_witness :
    calcCohensD [5] [1, 2, 3] = .ok (.nan, "Huge") :=
  short_sample_yields_nan_huge [5] [1, 2, 3] (by decide)

/-- C10.  Whenever the computed standardized difference d is NaN, the
calculator returns normally and labels it "Huge": every ordered
comparison against NaN is false, so the classification chain falls
through to its final `else`. -/
theorem nan_effect_size_returns_huge (s1 s2 : List ℚ)
    (h : cohensDval s1 s2 = .ok .nan) :
    calcCohensD s1 s2 = .ok (.nan, "Huge")
    ∧ (∀ q : ℚ, pyLt (.fin q) .nan = false ∧ pyLe .nan (.fin q) = false) := by
  constructor
  · unfold calcCohensD
    rw [h]
    rfl
  · intro q
    exact ⟨rfl, rfl⟩

/-- C10 (witness): the concrete pair `[7]`, `[1, 2, 3, 4]` has d = NaN
and is labelled "Huge". -/
theorem nan_effect_size_returns_huge_witness :
    calcCohensD [7] [1, 2, 3, 4] = .ok (.nan, "Huge") :=
  (nan_effect_size_returns_huge [7] [1, 2, 3, 4] (by decide)).1

/-
Structure of the eligibility computation.
-/

theorem eligibleLabels_eq_filter (st : List Student) :
    eligibleLabels st = (groupLabels st).filter
      (fun l => decide (MAGIC_NUMBER < (valuesFor st l).length)) := by
  unfold eligibleLabels groupCounts
  rw [List.filter_map, List.map_map]
  simp [Function.comp_def]

/-- C8.  In both engines a label participates in testing exactly when
its count of non-missing outcome values strictly exceeds 30 (the
`MAGIC_NUMBER` threshold): both `run_anova` and `run_t_test` filter the
same grouped count table with the same strict comparison, embedded here
as `eligibleLabels`, so a label with exactly 30 values (for which
`30 < 30` fails) is excluded. -/
theorem eligibility_iff_count_above_threshold :
    ∀ (st : List Student) (l : String),
      l ∈ eligibleLabels st ↔ l ∈ groupLabels st ∧ 30 < (valuesFor st l).length := by
  intro st l
  rw [eligibleLabels_eq_filter]
  simp [List.mem_filter, MAGIC_NUMBER]

/-- C9.  Both engines return `False` and compute no test statistic when
fewer than two labels pass the size filter, and run the test and return
`True` otherwise: the executed flag equals the two-eligible-labels test,
and a p-value is produced exactly when the flag is set. -/
theorem engines_run_iff_two_eligible :
    ∀ (fOneway kruskal : List (List ℚ) → PyFloat) (tstat tp tlow thigh : ℕ → ℕ → ℚ)
      (ttest : List ℚ → List ℚ → PyFloat) (st : List Student),
      (runAnova fOneway kruskal tstat tp tlow thigh st).ran
          = decide (2 ≤ (eligibleLabels st).length)
      ∧ (runTTest ttest st).ran = decide (2 ≤ (eligibleLabels st).length)
      ∧ (runAnova fOneway kruskal tstat tp tlow thigh st).pUsed.isSome
          = (runAnova fOneway kruskal tstat tp tlow thigh st).ran
      ∧ (runTTest ttest st).pUsed.isSome = (runTTest ttest st).ran := by
  intro f k ts tp tl th tt st
  unfold runAnova runTTest
  by_cases h : (eligibleLabels st).length < 2
  · simp [h, show ¬(2 ≤ (eligibleLabels st).length) by omega]
  · simp [h, show 2 ≤ (eligibleLabels st).length by omega]

/-- C2.  The claim says a NaN omnibus p-value is detected and the engine
falls back to Kruskal-Wallis.  It is not: the trigger `p_value == NaN`
is an equality comparison against NaN, which is false for every float
(including NaN itself), so the fallback branch is unreachable — the
result is independent of the Kruskal-Wallis function, and when
`f_oneway` returns NaN that NaN itself drives the decision, landing in
the "rejected" branch because `nan > 0.05` is also false. -/
theorem anova_nan_fallback_never_runs :
    ∀ (fOneway kruskal kruskal2 : List (List ℚ) → PyFloat)
      (tstat tp tlow thigh : ℕ → ℕ → ℚ) (st : List Student),
      (runAnova fOneway kruskal tstat tp tlow thigh st).fallbackTaken = false
      ∧ runAnova fOneway kruskal tstat tp tlow thigh st
          = runAnova fOneway kruskal2 tstat tp tlow thigh st
      ∧ (runAnova (fun _ => .nan) kruskal tstat tp tlow thigh st).upheld
          = (if 2 ≤ (eligibleLabels st).length then some false else none) := by
  intro f k k2 ts tp tl th st
  unfold runAnova
  by_cases h : (eligibleLabels st).length < 2
  · simp [h, show ¬(2 ≤ (eligibleLabels st).length) by omega]
  · simp [h, show 2 ≤ (eligibleLabels st).length by omega, pyEq_nan_right,
      pUpheld, pyLt_nan_right]

/-- C3.  The claim says each descriptive statistic appears under its
corresponding column.  The code disagrees for the last two columns: the
data row lists the group maximum before the minimum, so the value under
the "Min" header (position 4) is the maximum and the value under "Max"
(position 5) is the minimum.  On the concrete eligible dataset `stBig`
(group "A" has minimum 1 and maximum 5), the executed engine reports 5
under "Min" and 1 under "Max" — and it does report the table even though
the difference was not significant (`upheld = some true`). -/
theorem t_test_stats_min_max_swapped :
    statsColumns.getD 4 (.str "") = .str "Min"
    ∧ statsColumns.getD 5 (.str "") = .str "Max"
    ∧ ((runTTest (fun _ _ => .fin 1) stBig).statsTable.map
        (fun t => (t.getD 0 []).getD 4 (.str ""))) = some (.num (.fin 5))
    ∧ ((runTTest (fun _ _ => .fin 1) stBig).statsTable.map
        (fun t => (t.getD 0 []).getD 5 (.str ""))) = some (.num (.fin 1))
    ∧ descMin (valuesFor stBig "A") = .fin 1
    ∧ descMax (valuesFor stBig "A") = .fin 5
    ∧ (runTTest (fun _ _ => .fin 1) stBig).upheld = some true := by
  refine ⟨by decide, by decide, by decide, by decide, by decide, by decide, by decide⟩

/-
Structural lemmas for the post-hoc pair enumeration.
-/

theorem getD_of_lt {α : Type} (l : List α) (d : α) {n : ℕ} (h : n < l.length) :
    l.getD n d = l[n] := by
  rw [List.getD_eq_getElem?_getD, List.getElem?_eq_getElem h]
  rfl

theorem nodup_groupLabels (st : List Student) : (groupLabels st).Nodup := by
  unfold groupLabels
  exact (List.perm_insertionSort _ _).nodup_iff.mpr (List.nodup_dedup _)

theorem nodup_eligibleLabels (st : List Student) : (eligibleLabels st).Nodup := by
  rw [eligibleLabels_eq_filter]
  exact (nodup_groupLabels st).filter _

theorem mem_pairIdx {n i j : ℕ} : (i, j) ∈ pairIdx n ↔ i < j ∧ j < n := by
  unfold pairIdx
  simp only [List.mem_flatMap, List.mem_map, List.mem_filter, List.mem_range,
    decide_eq_true_eq, Prod.mk.injEq]
  constructor
  · rintro ⟨a, ha, b, ⟨hb, hab⟩, rfl, rfl⟩
    exact ⟨hab, hb⟩
  · rintro ⟨hij, hjn⟩
    exact ⟨i, by omega, j, ⟨hjn, hij⟩, rfl, rfl⟩

theorem nodup_pairIdx (n : ℕ) : (pairIdx n).Nodup := by
  unfold pairIdx
  rw [List.nodup_flatMap]
  constructor
  · intro i _
    refine ((List.nodup_range n).filter _).map ?_
    intro x y hxy
    simpa using congrArg Prod.snd hxy
  · refine (List.pairwise_lt_range n).imp ?_
    intro a b hab x hxa hxb
    simp only [List.mem_map, List.mem_filter, List.mem_range] at hxa hxb
    rcases hxa with ⟨ja, _, rfl⟩
    rcases hxb with ⟨jb, _, heq⟩
    have : b = a := congrArg Prod.fst heq
    omega

theorem countP_eq_one_of_unique {α : Type} (q : α → Bool) :
    ∀ (l : List α), l.Nodup → ∀ x₀ ∈ l, (∀ x ∈ l, q x = true ↔ x = x₀) →
      l.countP q = 1 := by
  intro l
  induction l with
  | nil => intro _ x₀ hx; cases hx
  | cons a t ih =>
    intro hnd x₀ hx hq
    have hnot : a ∉ t := (List.nodup_cons.mp hnd).1
    rw [List.countP_cons]
    rcases List.mem_cons.mp hx with rfl | hxt
    · have hqa : q x₀ = true := (hq x₀ (List.mem_cons_self x₀ t)).mpr rfl
      have ht0 : t.countP q = 0 := List.countP_eq_zero.mpr (fun x hxt2 hqx => by
        have hxa := (hq x (List.mem_cons_of_mem x₀ hxt2)).mp hqx
        exact hnot (hxa ▸ hxt2))
      simp [hqa, ht0]
    · have hne : a ≠ x₀ := fun he => hnot (he ▸ hxt)
      have hqa : q a = false := by
        by_cases hqa : q a = true
        · exact absurd ((hq a (List.mem_cons_self a t)).mp hqa) hne
        · simpa using hqa
      have ht1 : t.countP q = 1 := ih (List.nodup_cons.mp hnd).2 x₀ hxt
        (fun x hx2 => hq x (List.mem_cons_of_mem a hx2))
      simp [hqa, ht1]

/-- C5.  When the multi-group omnibus test is significant, the post-hoc
table has exactly one row for every unordered pair of distinct eligible
labels — no self-pairs and never both (A,B) and (B,A), since the nested
loops of lines 118-121 skip every `i >= j` — and the engine reports the
rows sorted ascending by the (reported, three-decimal) p-value. -/
theorem posthoc_pairs_unique_and_sorted
    (tstat tp tlow thigh : ℕ → ℕ → ℚ) (st : List Student) :
    (∀ r ∈ postHocRows (eligibleLabels st) (valuesFor st) tstat tp tlow thigh,
        r.l1 ≠ r.l2)
    ∧ (∀ a b : String, a ∈ eligibleLabels st → b ∈ eligibleLabels st → a ≠ b →
        (postHocRows (eligibleLabels st) (valuesFor st) tstat tp tlow thigh).countP
          (fun r => decide ((r.l1 = a ∧ r.l2 = b) ∨ (r.l1 = b ∧ r.l2 = a))) = 1)
    ∧ (sortPostHoc (postHocRows (eligibleLabels st) (valuesFor st) tstat tp tlow thigh)).Perm
        (postHocRows (eligibleLabels st) (valuesFor st) tstat tp tlow thigh)
    ∧ List.Pairwise (fun r1 r2 => r1.p ≤ r2.p)
        (sortPostHoc (postHocRows (eligibleLabels st) (valuesFor st) tstat tp tlow thigh))
    ∧ (∀ (fOneway kruskal : List (List ℚ) → PyFloat),
        (runAnova fOneway kruskal tstat tp tlow thigh st).postHoc = none
        ∨ (runAnova fOneway kruskal tstat tp tlow thigh st).postHoc
            = some (sortPostHoc
                (postHocRows (eligibleLabels st) (valuesFor st) tstat tp tlow thigh))) := by
  have hnd := nodup_eligibleLabels st
  refine ⟨?_, ?_, ?_, ?_, ?_⟩
  · intro r hr
    unfold postHocRows at hr
    rcases List.mem_map.mp hr with ⟨⟨i, j⟩, hij, rfl⟩
    obtain ⟨hij2, hjn⟩ := mem_pairIdx.mp hij
    have hin : i < (eligibleLabels st).length := by omega
    show (eligibleLabels st).getD i "" ≠ (eligibleLabels st).getD j ""
    rw [getD_of_lt _ _ hin, getD_of_lt _ _ hjn]
    intro he
    have := hnd.getElem_inj_iff.mp he
    omega
  · intro a b ha hb hab
    obtain ⟨ia, hia, hae⟩ := List.mem_iff_getElem.mp ha
    obtain ⟨ib, hib, hbe⟩ := List.mem_iff_getElem.mp hb
    have hiaib : ia ≠ ib := by
      intro h
      subst h
      exact hab (hae.symm.trans hbe)
    unfold postHocRows
    rw [List.countP_map]
    rcases hiaib.lt_or_lt with hlt | hlt
    · refine countP_eq_one_of_unique _ _ (nodup_pairIdx _) (ia, ib)
        (mem_pairIdx.mpr ⟨hlt, hib⟩) ?_
      rintro ⟨i, j⟩ hij
      obtain ⟨hij2, hjn⟩ := mem_pairIdx.mp hij
      have hin : i < (eligibleLabels st).length := by omega
      simp only [Function.comp_apply, decide_eq_true_eq, Prod.mk.injEq,
        getD_of_lt _ _ hin, getD_of_lt _ _ hjn]
      constructor
      · rintro (⟨h1, h2⟩ | ⟨h1, h2⟩)
        · have e1 : i = ia := hnd.getElem_inj_iff.mp (by rw [h1, ← hae])
          have e2 : j = ib := hnd.getElem_inj_iff.mp (by rw [h2, ← hbe])
          exact ⟨e1, e2⟩
        · have e1 : i = ib := hnd.getElem_inj_iff.mp (by rw [h1, ← hbe])
          have e2 : j = ia := hnd.getElem_inj_iff.mp (by rw [h2, ← hae])
          omega
      · rintro ⟨rfl, rfl⟩
        exact Or.inl ⟨hae, hbe⟩
    · refine countP_eq_one_of_unique _ _ (nodup_pairIdx _) (ib, ia)
        (mem_pairIdx.mpr ⟨hlt, hia⟩) ?_
      rintro ⟨i, j⟩ hij
      obtain ⟨hij2, hjn⟩ := mem_pairIdx.mp hij
      have hin : i < (eligibleLabels st).length := by omega
      simp only [Function.comp_apply, decide_eq_true_eq, Prod.mk.injEq,
        getD_of_lt _ _ hin, getD_of_lt _ _ hjn]
      constructor
      · rintro (⟨h1, h2⟩ | ⟨h1, h2⟩)
        · have e1 : i = ia := hnd.getElem_inj_iff.mp (by rw [h1, ← hae])
          have e2 : j = ib := hnd.getElem_inj_iff.mp (by rw [h2, ← hbe])
          omega
        · have e1 : i = ib := hnd.getElem_inj_iff.mp (by rw [h1, ← hbe])
          have e2 : j = ia := hnd.getElem_inj_iff.mp (by rw [h2, ← hae])
          exact ⟨e1, e2⟩
      · rintro ⟨rfl, rfl⟩
        exact Or.inr ⟨hbe, hae⟩
  · exact List.perm_insertionSort _ _
  · exact List.sorted_insertionSort _ _
  · intro f k
    unfold runAnova
    by_cases h : (eligibleLabels st).length < 2
    · simp [h]
    · simp only [h, if_false]
      split <;> split <;> simp

/-- C5 (witness): on the concrete dataset `stBig` whose eligible labels
are "A" and "B", the table holds exactly one row for that pair. -/
theorem posthoc_pairs_unique_and_sorted_witness :
    (postHocRows (eligibleLabels stBig) (valuesFor stBig)
      (fun _ _ => 0) (fun i j => mkRat (i + 17 * j) 1000) (fun _ _ => 0)
      (fun _ _ => 0)).countP
      (fun r => decide ((r.l1 = "A" ∧ r.l2 = "B") ∨ (r.l1 = "B" ∧ r.l2 = "A"))) = 1 :=
  (posthoc_pairs_unique_and_sorted (fun _ _ => 0) (fun i j => mkRat (i + 17 * j) 1000)
    (fun _ _ => 0) (fun _ _ => 0) stBig).2.1 "A" "B" (by decide) (by decide) (by decide)

end EquityAnalysis
